import Mathlib

/-!
Verification development for `proj2.c` (IOS project 2: post-office simulation).

The C program runs one orchestrator process, `NZ` client processes and `NU`
worker processes over one shared-memory block.  This file gives a shallow
embedding of that program:

* the logging functions `log_client`, `log_worker`, `log_office`
  (lines 201-268 of `proj2.c`) become pure state transformers over `LogState`;
  every `sem_wait(&memory->output) ... sem_post(&memory->output)` section is
  modelled as one atomic operation, which is exactly the atomicity the
  `output` semaphore provides;
* the pure helpers `check_queues` (lines 322-324), the queue-selection code of
  the serving branch (lines 352-355) and the release loop of the closing
  branch (lines 412-416) become Lean functions on queue snapshots;
* the client, worker and orchestrator processes become explicit small-step
  state machines over a `Sys` state; every `sem_wait(&memory->mutex) ...
  sem_post(&memory->mutex)` critical section is one atomic step, and every
  *unlocked* read of shared memory in the C code is a separate step that reads
  the current shared state (this preserves the races the C code actually has);
* `main`'s argument handling (lines 437-461, with `parse_int_arg` modelling
  glibc `strtol` on base 10 plus the `(int)` truncation on an LP64/Linux
  target) and `SharedMemory_init` (lines 171-185, with injected failure
  points) become functions returning explicit outcomes.

Ghost fields (`reads_of_open`, `queue_incs`, `posted`, `waits`) count events
for the specification only; they influence no branch of the model.
-/

namespace PostOffice

/-! ## Log model (proj2.c lines 42-68, 196-268) -/

/-- Worker actions, from `enum WorkerAction` (lines 43-56). -/
inductive WorkerAction
  | WA_STARTED
  | WA_SERVING_START
  | WA_SERVING_END
  | WA_BREAK_START
  | WA_BREAK_END
  | WA_FINISHED
deriving DecidableEq

/-- Client actions, from `enum ClientAction` (lines 59-68). -/
inductive ClientAction
  | CA_STARTED
  | CA_ENTERING_OFFICE
  | CA_CALLED_BY_WORKER
  | CA_FINISHED
deriving DecidableEq

/-- One line of `proj2.out`, minus its sequence number: which `fprintf`
format of `log_client` / `log_worker` / `log_office` produced it and with
which arguments. -/
inductive Event
  | clientStarted (id : Nat)
  | clientEntering (id svc : Nat)
  | clientCalled (id : Nat)
  | clientHome (id : Nat)
  | workerStarted (id : Nat)
  | servingStart (id svc : Nat)
  | servingEnd (id : Nat)
  | breakStart (id : Nat)
  | breakEnd (id : Nat)
  | workerHome (id : Nat)
  | closing
deriving DecidableEq

/-- The shared `lines_count` field together with the contents of the output
file: the list of (sequence number, event) pairs written so far. -/
structure LogState where
  lines_count : Nat
  lines : List (Nat × Event)
deriving DecidableEq

/-- One `fprintf(memory->file, "%ld: ...", ++memory->lines_count, ...)`:
pre-increment the shared counter and append the line carrying the new
counter value. -/
def emit (st : LogState) (e : Event) : LogState :=
  { lines_count := st.lines_count + 1
    lines := st.lines ++ [(st.lines_count + 1, e)] }

/-- `log_client` (lines 201-222).  The whole body runs between
`sem_wait(&memory->output)` and `sem_post(&memory->output)`, so it is one
atomic `LogState` update. -/
def log_client (st : LogState) (id service : Nat) (action : ClientAction) : LogState :=
  match action with
  | .CA_STARTED => emit st (.clientStarted id)
  | .CA_ENTERING_OFFICE => emit st (.clientEntering id service)
  | .CA_CALLED_BY_WORKER => emit st (.clientCalled id)
  | .CA_FINISHED => emit st (.clientHome id)

/-- `log_worker` (lines 229-256), atomic under the `output` semaphore. -/
def log_worker (st : LogState) (id service : Nat) (action : WorkerAction) : LogState :=
  match action with
  | .WA_STARTED => emit st (.workerStarted id)
  | .WA_SERVING_START => emit st (.servingStart id service)
  | .WA_SERVING_END => emit st (.servingEnd id)
  | .WA_BREAK_START => emit st (.breakStart id)
  | .WA_BREAK_END => emit st (.breakEnd id)
  | .WA_FINISHED => emit st (.workerHome id)

/-- `log_office` (lines 261-268), atomic under the `output` semaphore. -/
def log_office (st : LogState) : LogState :=
  emit st .closing

/-- A call to one of the three logging functions, with its arguments: the
unit of serialization that the `output` semaphore enforces across all
processes. -/
inductive LogOp
  | client (id service : Nat) (action : ClientAction)
  | worker (id service : Nat) (action : WorkerAction)
  | office
deriving DecidableEq

/-- Dispatch a serialized logging call. -/
def applyOp (st : LogState) (op : LogOp) : LogState :=
  match op with
  | .client id service action => log_client st id service action
  | .worker id service action => log_worker st id service action
  | .office => log_office st

/-- Sequence-number contiguity invariant of the log: the numbers written so
far are exactly `1, 2, ..., n` and the shared counter equals `n`. -/
def GoodLog (st : LogState) : Prop :=
  st.lines.map Prod.fst = List.range' 1 st.lines.length ∧
  st.lines_count = st.lines.length

lemma range'_snoc (s n : Nat) :
    List.range' s (n + 1) = List.range' s n ++ [s + n] := by
  induction n generalizing s with
  | zero => simp [List.range']
  | succ n ih =>
    rw [List.range'_succ, ih (s + 1), List.range'_succ]
    simp [List.cons_append]
    omega

lemma goodLog_emit (st : LogState) (e : Event) (h : GoodLog st) :
    GoodLog (emit st e) := by
  obtain ⟨hmap, hcnt⟩ := h
  constructor
  · simp [emit, hmap, hcnt, range'_snoc, Nat.add_comm]
  · simp [emit, hcnt]

lemma goodLog_applyOp (st : LogState) (op : LogOp) (h : GoodLog st) :
    GoodLog (applyOp st op) := by
  cases op with
  | client id service action =>
    cases action <;> exact goodLog_emit _ _ h
  | worker id service action =>
    cases action <;> exact goodLog_emit _ _ h
  | office => exact goodLog_emit _ _ h

lemma goodLog_foldl (ops : List LogOp) :
    ∀ st : LogState, GoodLog st → GoodLog (ops.foldl applyOp st) := by
  induction ops with
  | nil => intro st h; exact h
  | cons op ops ih =>
    intro st h
    exact ih _ (goodLog_applyOp st op h)

/-- C5: for every serialized sequence of `log_client` / `log_worker` /
`log_office` calls starting from the initial shared state
(`lines_count = 0`, empty file), the written sequence numbers are exactly
the contiguous range `1, 2, ..., n` with no duplicates or gaps (hence
strictly increasing across all processes), and every single call increments
`lines_count` by exactly one and emits exactly one line.  The `output`
semaphore is what serializes the calls; each call is one `LogOp`. -/
theorem c5_log_contiguous :
    (∀ ops : List LogOp,
      (ops.foldl applyOp ⟨0, []⟩).lines.map Prod.fst =
        List.range' 1 (ops.foldl applyOp ⟨0, []⟩).lines.length ∧
      (ops.foldl applyOp ⟨0, []⟩).lines_count =
        (ops.foldl applyOp ⟨0, []⟩).lines.length) ∧
    (∀ (st : LogState) (op : LogOp),
      (applyOp st op).lines_count = st.lines_count + 1 ∧
      (applyOp st op).lines.length = st.lines.length + 1) := by
  constructor
  · intro ops
    exact goodLog_foldl ops ⟨0, []⟩ (by constructor <;> simp)
  · intro st op
    cases op with
    | client id service action => cases action <;> simp [applyOp, log_client, emit]
    | worker id service action => cases action <;> simp [applyOp, log_worker, emit]
    | office => simp [applyOp, log_office, emit]

/-! ## Pure helpers of `process_worker` -/

/-- `check_queues` (lines 322-324): is any of the three queues non-empty
(in the `> 0` sense used there)? -/
def check_queues (queue : Fin 3 → Int) : Bool :=
  queue 0 > 0 || queue 1 > 0 || queue 2 > 0

/-- Queue selection of the serving branch (lines 352-355):

```
int queue = random_int(1, 3);
if (memory->queue[queue - 1] == 0)
    for (queue = 1; queue <= 3; queue++)
        if (memory->queue[queue - 1]) break;
```

`r` is the zero-based value of `random_int(1, 3) - 1`; the result is the
1-based value of the C variable `queue` after this code, which is `4` when
the fallback loop runs to completion without a break (all counters zero,
C truthiness `if (memory->queue[queue - 1])` meaning nonzero). -/
def chooseQueue (r : Fin 3) (queue : Fin 3 → Int) : Nat :=
  if queue r = 0 then
    if queue 0 ≠ 0 then 1
    else if queue 1 ≠ 0 then 2
    else if queue 2 ≠ 0 then 3
    else 4
  else r.val + 1

/-- Release loop of the closing branch (lines 412-416):

```
for (int i = 0; i < 3; i++)
    if (memory->queue[i] > 0)
        sem_post(&memory->queue_sem[i]);
```

applied to a snapshot of the queue counters and the current semaphore
values. -/
def releaseQueues (queue : Fin 3 → Int) (sem : Fin 3 → Nat) : Fin 3 → Nat :=
  let s0 := if queue 0 > 0 then Function.update sem 0 (sem 0 + 1) else sem
  let s1 := if queue 1 > 0 then Function.update s0 1 (s0 1 + 1) else s0
  if queue 2 > 0 then Function.update s1 2 (s1 2 + 1) else s1

lemma chooseQueue_bounds (r : Fin 3) (queue : Fin 3 → Int)
    (h : queue 0 ≠ 0 ∨ queue 1 ≠ 0 ∨ queue 2 ≠ 0) :
    1 ≤ chooseQueue r queue ∧ chooseQueue r queue ≤ 3 := by
  unfold chooseQueue
  split
  · rcases h with h0 | h1 | h2
    · simp [h0]
    · by_cases h0 : queue 0 ≠ 0 <;> simp [h0, h1]
    · by_cases h0 : queue 0 ≠ 0
      · simp [h0]
      · by_cases h1 : queue 1 ≠ 0 <;> simp [h0, h1, h2]
  · omega

lemma chooseQueue_all_zero (r : Fin 3) (queue : Fin 3 → Int)
    (h0 : queue 0 = 0) (h1 : queue 1 = 0) (h2 : queue 2 = 0) :
    chooseQueue r queue = 4 := by
  have hr : queue r = 0 := by
    have : r = 0 ∨ r = 1 ∨ r = 2 := by omega
    rcases this with h | h | h <;> simp [h, h0, h1, h2]
  simp [chooseQueue, hr, h0, h1, h2]

/-! ## Process state machines

One Lean step = one atomic action of the C code: a whole
`mutex`-protected critical section, one semaphore operation, one logging
call (`output`-protected), or one unlocked read of shared memory together
with the branch it decides.  `random_sleep` calls are points where the
scheduler may simply run other processes, so they need no step of their
own; the randomness of `random_int(1, 3)` enters as an input of the
step that uses it. -/

/-- Program counter of `process_client` (lines 274-318). -/
inductive ClientPC
  | start          -- about to run `log_client(..., CA_STARTED)` (line 275)
  | lockRead       -- about to read `post_open` under `mutex` (lines 289-291)
  | decide         -- about to evaluate `is_post_open && (is_post_open == memory->post_open)` (line 293)
  | incr           -- about to run `memory->queue[service - 1]++` under `mutex` (lines 296-298)
  | enterLog       -- about to log CA_ENTERING_OFFICE (line 300)
  | waitCall       -- blocked in `sem_wait(&memory->queue_sem[service - 1])` (line 308)
  | calledLog      -- about to log CA_CALLED_BY_WORKER (line 312)
  | homeLog        -- about to log CA_FINISHED after service (line 314)
  | done           -- after `exit(EXIT_SUCCESS)` (line 317)
  | homeLogClosed  -- about to log CA_FINISHED in the closed branch (line 303)
  | doneClosed     -- after `exit(EXIT_SUCCESS)` in the closed branch (line 304)
deriving DecidableEq

/-- State of one client process.  `service` is the zero-based value of the
C variable `service - 1` (`service = random_int(1, 3)`, line 282);
`is_post_open` is the local variable of line 288.  `reads_of_open` and
`queue_incs` are ghost counters: mutex-protected reads of `post_open`
performed, and queue increments performed, by this client. -/
structure Client where
  pc : ClientPC
  service : Fin 3
  is_post_open : Bool
  reads_of_open : Nat
  queue_incs : Nat
deriving DecidableEq

/-- Program counter of `process_worker` (lines 330-432). -/
inductive WorkerPC
  | start        -- about to run `log_worker(..., WA_STARTED)` (line 331)
  | loop         -- about to snapshot `has_clients` and `post_open` under `mutex` (lines 339-342)
  | branch       -- about to dispatch on the snapshot (lines 347, 375, 397)
  | choose       -- serving: about to pick a queue from unlocked reads (lines 352-355)
  | decr         -- about to run `memory->queue[queue - 1]--` under `mutex` (lines 359-361)
  | callClient   -- about to run `sem_post(&memory->queue_sem[queue - 1])` (line 364)
  | serveLog     -- about to log WA_SERVING_START (line 368)
  | serveEndLog  -- about to log WA_SERVING_END (line 370)
  | breakCheck   -- break: about to run `if (!memory->post_open) continue;` (lines 377-380)
  | breakLog     -- about to log WA_BREAK_START (line 383)
  | breakCheck2  -- about to run `if (!memory->post_open) { sem_post(&memory->leaving); is_leaving = 1; }` (lines 386-390)
  | breakEndLog  -- about to log WA_BREAK_END (line 392)
  | closeCheck   -- closing: about to re-run `check_queues` unlocked (lines 400-403)
  | closePost    -- about to run `if (!is_leaving) sem_post(&memory->leaving);` (lines 406-409)
  | release      -- about to run the release loop (lines 412-416)
  | waitDismiss  -- blocked in `sem_wait(&memory->post_closed)` (line 420)
  | finalLog     -- about to log WA_FINISHED (line 424)
  | done         -- after `exit(EXIT_SUCCESS)` (line 425)
deriving DecidableEq

/-- State of one worker process: locals `has_clients`, `post_open`
(the snapshot), the serving-branch variable `queue` (1-based, here
`chosen`), and `is_leaving` (lines 334-336).  `posted` is a ghost counter
of `sem_post(&memory->leaving)` calls made by this worker. -/
structure Worker where
  pc : WorkerPC
  has_clients : Bool
  post_open : Bool
  chosen : Nat
  is_leaving : Bool
  posted : Nat
deriving DecidableEq

/-- Program counter of the orchestrator after the forks (lines 485-519):
close the office, wait `NU` times on `leaving`, log the closing line, post
`post_closed` `NU` times, then reap and clean up. -/
inductive OrchPC
  | close            -- about to run `shared->post_open = 0` (line 493)
  | barrier (k : Nat) -- `k` remaining `sem_wait(&shared->leaving)` iterations (lines 497-499)
  | logClose         -- about to run `log_office(shared)` (line 501)
  | dismiss (k : Nat) -- `k` remaining `sem_post(&shared->post_closed)` iterations (lines 505-507)
  | done             -- reaping children / cleanup (lines 511-519)
deriving DecidableEq

/-- Orchestrator state.  `waits` is a ghost counter of completed
`sem_wait(&shared->leaving)` calls. -/
structure Orch where
  pc : OrchPC
  waits : Nat
deriving DecidableEq

/-- The shared-memory block `SharedMemory` (lines 72-94): the `post_open`
flag, the three queue counters (C `int`), the counting semaphores
`queue_sem[3]`, `leaving` and `post_closed` as their current values, and
the output file with its line counter.  The binary semaphores `mutex` and
`output` are represented by the atomicity of the steps. -/
structure Shared where
  post_open : Bool
  queue : Fin 3 → Int
  qsem : Fin 3 → Nat
  leaving : Nat
  post_closed : Nat
  log : LogState

/-- Whole-system state: shared memory plus every process.  `clients i`
(resp. `workers i`) is the state of the client (worker) with array index
`i` (its log id is `i + 1`), `none` if no such process exists.  `nu` is
`NU`.  `ub` is set when the model hits the out-of-bounds access
`memory->queue[3]` that the C code performs when `chooseQueue` returns 4
(undefined behaviour in C). -/
structure Sys where
  shared : Shared
  clients : Nat → Option Client
  workers : Nat → Option Worker
  orch : Orch
  nu : Nat
  ub : Bool

/-- One step of `process_client` number `i` (lines 274-318). -/
def clientStep (i : Nat) (s : Sys) : Sys :=
  match s.clients i with
  | none => s
  | some c =>
    match c.pc with
    | .start =>
      { s with
        shared := { s.shared with log := log_client s.shared.log (i + 1) 0 .CA_STARTED }
        clients := Function.update s.clients i (some { c with pc := .lockRead }) }
    | .lockRead =>
      -- `sem_wait(&memory->mutex); is_post_open = memory->post_open; sem_post(&memory->mutex);`
      { s with
        clients := Function.update s.clients i (some { c with
          pc := .decide
          is_post_open := s.shared.post_open
          reads_of_open := c.reads_of_open + 1 }) }
    | .decide =>
      -- line 293: the second conjunct re-reads `memory->post_open` with no lock held
      if c.is_post_open && (c.is_post_open == s.shared.post_open) then
        { s with clients := Function.update s.clients i (some { c with pc := .incr }) }
      else
        { s with clients := Function.update s.clients i (some { c with pc := .homeLogClosed }) }
    | .incr =>
      { s with
        shared := { s.shared with
          queue := Function.update s.shared.queue c.service (s.shared.queue c.service + 1) }
        clients := Function.update s.clients i (some { c with
          pc := .enterLog
          queue_incs := c.queue_incs + 1 }) }
    | .enterLog =>
      { s with
        shared := { s.shared with
          log := log_client s.shared.log (i + 1) (c.service.val + 1) .CA_ENTERING_OFFICE }
        clients := Function.update s.clients i (some { c with pc := .waitCall }) }
    | .waitCall =>
      if 0 < s.shared.qsem c.service then
        { s with
          shared := { s.shared with
            qsem := Function.update s.shared.qsem c.service (s.shared.qsem c.service - 1) }
          clients := Function.update s.clients i (some { c with pc := .calledLog }) }
      else s
    | .calledLog =>
      { s with
        shared := { s.shared with
          log := log_client s.shared.log (i + 1) (c.service.val + 1) .CA_CALLED_BY_WORKER }
        clients := Function.update s.clients i (some { c with pc := .homeLog }) }
    | .homeLog =>
      { s with
        shared := { s.shared with
          log := log_client s.shared.log (i + 1) (c.service.val + 1) .CA_FINISHED }
        clients := Function.update s.clients i (some { c with pc := .done }) }
    | .homeLogClosed =>
      { s with
        shared := { s.shared with
          log := log_client s.shared.log (i + 1) (c.service.val + 1) .CA_FINISHED }
        clients := Function.update s.clients i (some { c with pc := .doneClosed }) }
    | .done => s
    | .doneClosed => s

/-- One step of `process_worker` number `i` (lines 330-432).  `r` is the
zero-based value of `random_int(1, 3) - 1`, consumed only by the `choose`
step. -/
def workerStep (r : Fin 3) (i : Nat) (s : Sys) : Sys :=
  match s.workers i with
  | none => s
  | some w =>
    match w.pc with
    | .start =>
      { s with
        shared := { s.shared with log := log_worker s.shared.log (i + 1) 0 .WA_STARTED }
        workers := Function.update s.workers i (some { w with pc := .loop }) }
    | .loop =>
      -- lines 339-342: mutex-protected snapshot of both values
      { s with
        workers := Function.update s.workers i (some { w with
          pc := .branch
          has_clients := check_queues s.shared.queue
          post_open := s.shared.post_open }) }
    | .branch =>
      -- the three `if`s on the snapshot (lines 347, 375, 397) are exhaustive
      if w.has_clients then
        { s with workers := Function.update s.workers i (some { w with pc := .choose }) }
      else if w.post_open then
        { s with workers := Function.update s.workers i (some { w with pc := .breakCheck }) }
      else
        { s with workers := Function.update s.workers i (some { w with pc := .closeCheck }) }
    | .choose =>
      -- lines 352-355, unlocked reads of the live queue counters
      { s with
        workers := Function.update s.workers i (some { w with
          pc := .decr
          chosen := chooseQueue r s.shared.queue }) }
    | .decr =>
      if h : w.chosen - 1 < 3 then
        { s with
          shared := { s.shared with
            queue := Function.update s.shared.queue ⟨w.chosen - 1, h⟩
              (s.shared.queue ⟨w.chosen - 1, h⟩ - 1) }
          workers := Function.update s.workers i (some { w with pc := .callClient }) }
      else
        -- `memory->queue[3]--`: out of bounds
        { s with
          ub := true
          workers := Function.update s.workers i (some { w with pc := .callClient }) }
    | .callClient =>
      if h : w.chosen - 1 < 3 then
        { s with
          shared := { s.shared with
            qsem := Function.update s.shared.qsem ⟨w.chosen - 1, h⟩
              (s.shared.qsem ⟨w.chosen - 1, h⟩ + 1) }
          workers := Function.update s.workers i (some { w with pc := .serveLog }) }
      else
        { s with
          ub := true
          workers := Function.update s.workers i (some { w with pc := .serveLog }) }
    | .serveLog =>
      { s with
        shared := { s.shared with
          log := log_worker s.shared.log (i + 1) w.chosen .WA_SERVING_START }
        workers := Function.update s.workers i (some { w with pc := .serveEndLog }) }
    | .serveEndLog =>
      { s with
        shared := { s.shared with
          log := log_worker s.shared.log (i + 1) w.chosen .WA_SERVING_END }
        workers := Function.update s.workers i (some { w with pc := .loop }) }
    | .breakCheck =>
      -- line 377: unlocked read
      if s.shared.post_open then
        { s with workers := Function.update s.workers i (some { w with pc := .breakLog }) }
      else
        { s with workers := Function.update s.workers i (some { w with pc := .loop }) }
    | .breakLog =>
      { s with
        shared := { s.shared with log := log_worker s.shared.log (i + 1) 0 .WA_BREAK_START }
        workers := Function.update s.workers i (some { w with pc := .breakCheck2 }) }
    | .breakCheck2 =>
      -- lines 386-390: unlocked read; on closed, post `leaving` and set the local flag
      if s.shared.post_open then
        { s with workers := Function.update s.workers i (some { w with pc := .breakEndLog }) }
      else
        { s with
          shared := { s.shared with leaving := s.shared.leaving + 1 }
          workers := Function.update s.workers i (some { w with
            pc := .breakEndLog
            is_leaving := true
            posted := w.posted + 1 }) }
    | .breakEndLog =>
      { s with
        shared := { s.shared with log := log_worker s.shared.log (i + 1) 0 .WA_BREAK_END }
        workers := Function.update s.workers i (some { w with pc := .loop }) }
    | .closeCheck =>
      -- line 400: unlocked `check_queues`
      if check_queues s.shared.queue then
        { s with workers := Function.update s.workers i (some { w with pc := .loop }) }
      else
        { s with workers := Function.update s.workers i (some { w with pc := .closePost }) }
    | .closePost =>
      if w.is_leaving then
        { s with workers := Function.update s.workers i (some { w with pc := .release }) }
      else
        { s with
          shared := { s.shared with leaving := s.shared.leaving + 1 }
          workers := Function.update s.workers i (some { w with
            pc := .release
            posted := w.posted + 1 }) }
    | .release =>
      { s with
        shared := { s.shared with qsem := releaseQueues s.shared.queue s.shared.qsem }
        workers := Function.update s.workers i (some { w with pc := .waitDismiss }) }
    | .waitDismiss =>
      if 0 < s.shared.post_closed then
        { s with
          shared := { s.shared with post_closed := s.shared.post_closed - 1 }
          workers := Function.update s.workers i (some { w with pc := .finalLog }) }
      else s
    | .finalLog =>
      { s with
        shared := { s.shared with log := log_worker s.shared.log (i + 1) 0 .WA_FINISHED }
        workers := Function.update s.workers i (some { w with pc := .done }) }
    | .done => s

/-- One step of the orchestrator (lines 485-519). -/
def orchStep (s : Sys) : Sys :=
  match s.orch.pc with
  | .close =>
    -- line 493: plain store, no lock
    { s with
      shared := { s.shared with post_open := false }
      orch := { s.orch with pc := .barrier s.nu } }
  | .barrier 0 =>
    { s with orch := { s.orch with pc := .logClose } }
  | .barrier (k + 1) =>
    if 0 < s.shared.leaving then
      { s with
        shared := { s.shared with leaving := s.shared.leaving - 1 }
        orch := { pc := .barrier k, waits := s.orch.waits + 1 } }
    else s
  | .logClose =>
    { s with
      shared := { s.shared with log := log_office s.shared.log }
      orch := { s.orch with pc := .dismiss s.nu } }
  | .dismiss 0 =>
    { s with orch := { s.orch with pc := .done } }
  | .dismiss (k + 1) =>
    { s with
      shared := { s.shared with post_closed := s.shared.post_closed + 1 }
      orch := { s.orch with pc := .dismiss k } }
  | .done => s

/-- A scheduler action: which process runs its next atomic step.  The
worker action carries the value its next `random_int(1, 3)` call would
return (zero-based); a step that does not use it ignores it. -/
inductive Act
  | client (i : Nat)
  | worker (i : Nat) (r : Fin 3)
  | orch
deriving DecidableEq

/-- Interleaving semantics: one atomic step of the chosen process.
Blocked or nonexistent processes leave the state unchanged. -/
def step (s : Sys) (a : Act) : Sys :=
  match a with
  | .client i => clientStep i s
  | .worker i r => workerStep r i s
  | .orch => orchStep s

/-- Run a schedule. -/
def run (s : Sys) (acts : List Act) : Sys :=
  acts.foldl step s

/-- Initial system state: shared memory as `SharedMemory_init` leaves it
(`post_open = 1`, `lines_count = 0`, all queues zero, all counting
semaphores zero), one client per entry of `svcs` (the entry being the
service `random_int(1, 3)` will pick for it, zero-based), `nu` workers,
and the orchestrator about to close the office after its random sleep.
Children do nothing between `fork` and their first step, so starting all
processes together is faithful. -/
def init (nu : Nat) (svcs : List (Fin 3)) : Sys :=
  { shared :=
      { post_open := true
        queue := fun _ => 0
        qsem := fun _ => 0
        leaving := 0
        post_closed := 0
        log := ⟨0, []⟩ }
    clients := fun i => (svcs.get? i).map fun sv =>
      { pc := .start, service := sv, is_post_open := false
        reads_of_open := 0, queue_incs := 0 }
    workers := fun i => if i < nu then
        some { pc := .start, has_clients := false, post_open := false
               chosen := 0, is_leaving := false, posted := 0 }
      else none
    orch := { pc := .close, waits := 0 }
    nu := nu
    ub := false }

/-! ## Global invariant -/

/-- Is this log line the `closing` line? -/
def isClosingEv : Event → Bool
  | .closing => true
  | _ => false

/-- Number of `closing` lines written so far. -/
def closingCount (l : LogState) : Nat :=
  l.lines.countP fun e => isClosingEv e.2

lemma closingCount_emit (l : LogState) (e : Event) :
    closingCount (emit l e) = closingCount l + (if isClosingEv e then 1 else 0) := by
  simp [closingCount, emit, List.countP_append, List.countP_cons]

lemma closingCount_log_client (l : LogState) (id svc : Nat) (a : ClientAction) :
    closingCount (log_client l id svc a) = closingCount l := by
  cases a <;> simp [log_client, closingCount_emit, isClosingEv]

lemma closingCount_log_worker (l : LogState) (id svc : Nat) (a : WorkerAction) :
    closingCount (log_worker l id svc a) = closingCount l := by
  cases a <;> simp [log_worker, closingCount_emit, isClosingEv]

lemma closingCount_log_office (l : LogState) :
    closingCount (log_office l) = closingCount l + 1 := by
  simp [log_office, closingCount_emit, isClosingEv]

/-- Worker pcs strictly after the `closePost` statement: from there on the
worker never posts `leaving` again. -/
def pastClosePost : WorkerPC → Bool
  | .release => true
  | .waitDismiss => true
  | .finalLog => true
  | .done => true
  | _ => false

/-- Per-worker invariant, relative to the current shared `post_open`:

1. the local `is_leaving` flag is set only once the office is closed
   (and `post_open` never goes back to `true`);
2. inside the break branch after its first `post_open` check succeeded
   (pcs `breakLog`, `breakCheck2`) the flag is still unset — this is why
   lines 386-390 can never post `leaving` a second time;
3. the ghost count of this worker's `sem_post(&memory->leaving)` calls is
   exactly one after the `closePost` statement, and before that it is one
   exactly when `is_leaving` is set. -/
def WInvP (po : Bool) (w : Worker) : Prop :=
  (w.is_leaving = true → po = false) ∧
  ((w.pc = .breakLog ∨ w.pc = .breakCheck2) → w.is_leaving = false) ∧
  (w.posted = if pastClosePost w.pc then 1 else if w.is_leaving then 1 else 0)

/-- Client pcs from which the client has joined a queue (queue counter
incremented). -/
def joinedPC : ClientPC → Bool
  | .enterLog => true
  | .waitCall => true
  | .calledLog => true
  | .homeLog => true
  | .done => true
  | _ => false

/-- Client pcs reachable only when the mutex-protected read of
`post_open` returned open *and* the unlocked re-read of line 293 also
returned open. -/
def enteredPC : ClientPC → Bool
  | .incr => true
  | pc => joinedPC pc

/-- Per-client invariant:

1. exactly one mutex-protected read of `post_open` happens, at `lockRead`;
2. the queue counter is incremented exactly once, at `incr`, and never on
   the closed path;
3. past the `decide` of line 293 towards the queue, the recorded
   mutex-protected read returned open. -/
def CInvP (c : Client) : Prop :=
  c.reads_of_open = (if c.pc = .start ∨ c.pc = .lockRead then 0 else 1) ∧
  c.queue_incs = (if joinedPC c.pc then 1 else 0) ∧
  (enteredPC c.pc = true → c.is_post_open = true)

/-- Orchestrator invariant: `waits` counts completed
`sem_wait(&shared->leaving)` calls, the barrier loop (lines 497-499) runs
before `log_office` (line 501), and the closing line is logged exactly
once, only after all `nu` waits completed. -/
def OInvP (nu : Nat) (cc : Nat) (o : Orch) : Prop :=
  match o.pc with
  | .close => o.waits = 0 ∧ cc = 0
  | .barrier k => k ≤ nu ∧ o.waits = nu - k ∧ cc = 0
  | .logClose => o.waits = nu ∧ cc = 0
  | .dismiss _ => o.waits = nu ∧ cc = 1
  | .done => o.waits = nu ∧ cc = 1

/-- Global inductive invariant of the system. -/
def Inv (s : Sys) : Prop :=
  (∀ i w, s.workers i = some w → WInvP s.shared.post_open w) ∧
  (∀ i c, s.clients i = some c → CInvP c) ∧
  OInvP s.nu (closingCount s.shared.log) s.orch

lemma WInvP_false (po : Bool) (w : Worker) (h : WInvP po w) : WInvP false w :=
  ⟨fun _ => rfl, h.2.1, h.2.2⟩

lemma forall_update_some {β : Type} (P : β → Prop) (f : Nat → Option β) (i : Nat) (b : β)
    (h : ∀ j x, f j = some x → P x) (hb : P b) :
    ∀ j x, Function.update f i (some b) j = some x → P x := by
  intro j x hx
  by_cases hj : j = i
  · subst hj
    rw [Function.update_same] at hx
    injection hx with hx
    subst hx
    exact hb
  · rw [Function.update_noteq hj] at hx
    exact h j x hx

lemma inv_init (nu : Nat) (svcs : List (Fin 3)) : Inv (init nu svcs) := by
  refine ⟨?_, ?_, ?_⟩
  · intro i w hw
    simp only [init] at hw
    split at hw
    · injection hw with hw
      subst hw
      simp [WInvP, pastClosePost]
    · exact absurd hw (by simp)
  · intro i c hc
    simp only [init] at hc
    cases h : svcs.get? i with
    | none => rw [h] at hc; exact absurd hc (by simp)
    | some sv =>
      rw [h] at hc
      injection hc with hc
      subst hc
      simp [CInvP, joinedPC, enteredPC]
  · simp [init, OInvP, closingCount]

lemma inv_clientStep (i : Nat) (s : Sys) (h : Inv s) : Inv (clientStep i s) := by
  obtain ⟨hw, hc, ho⟩ := h
  cases hcl : s.clients i with
  | none => simpa [clientStep, hcl] using ⟨hw, hc, ho⟩
  | some c =>
    obtain ⟨pc, sv, ipo, rds, incs⟩ := c
    have hCc := hc i _ hcl
    obtain ⟨h1, h2, h3⟩ := hCc
    simp only [CInvP, joinedPC, enteredPC] at h1 h2 h3
    cases pc with
    | start =>
      simp only [clientStep, hcl]
      refine ⟨hw, ?_, by simpa [closingCount_log_client] using ho⟩
      exact forall_update_some CInvP s.clients i _ hc
        (by simp_all [CInvP, joinedPC, enteredPC])
    | lockRead =>
      simp only [clientStep, hcl]
      refine ⟨hw, ?_, ho⟩
      exact forall_update_some CInvP s.clients i _ hc
        (by simp_all [CInvP, joinedPC, enteredPC])
    | decide =>
      simp only [clientStep, hcl]
      split
      · rename_i hguard
        simp only [Bool.and_eq_true, beq_iff_eq] at hguard
        refine ⟨hw, ?_, ho⟩
        exact forall_update_some CInvP s.clients i _ hc
          (by simp_all [CInvP, joinedPC, enteredPC])
      · refine ⟨hw, ?_, ho⟩
        exact forall_update_some CInvP s.clients i _ hc
          (by simp_all [CInvP, joinedPC, enteredPC])
    | incr =>
      simp only [clientStep, hcl]
      refine ⟨hw, ?_, ho⟩
      exact forall_update_some CInvP s.clients i _ hc
        (by simp_all [CInvP, joinedPC, enteredPC])
    | enterLog =>
      simp only [clientStep, hcl]
      refine ⟨hw, ?_, by simpa [closingCount_log_client] using ho⟩
      exact forall_update_some CInvP s.clients i _ hc
        (by simp_all [CInvP, joinedPC, enteredPC])
    | waitCall =>
      simp only [clientStep, hcl]
      split
      · refine ⟨hw, ?_, ho⟩
        exact forall_update_some CInvP s.clients i _ hc
          (by simp_all [CInvP, joinedPC, enteredPC])
      · exact ⟨hw, hc, ho⟩
    | calledLog =>
      simp only [clientStep, hcl]
      refine ⟨hw, ?_, by simpa [closingCount_log_client] using ho⟩
      exact forall_update_some CInvP s.clients i _ hc
        (by simp_all [CInvP, joinedPC, enteredPC])
    | homeLog =>
      simp only [clientStep, hcl]
      refine ⟨hw, ?_, by simpa [closingCount_log_client] using ho⟩
      exact forall_update_some CInvP s.clients i _ hc
        (by simp_all [CInvP, joinedPC, enteredPC])
    | homeLogClosed =>
      simp only [clientStep, hcl]
      refine ⟨hw, ?_, by simpa [closingCount_log_client] using ho⟩
      exact forall_update_some CInvP s.clients i _ hc
        (by simp_all [CInvP, joinedPC, enteredPC])
    | done => simpa [clientStep, hcl] using ⟨hw, hc, ho⟩
    | doneClosed => simpa [clientStep, hcl] using ⟨hw, hc, ho⟩

lemma inv_workerStep (r : Fin 3) (i : Nat) (s : Sys) (h : Inv s) :
    Inv (workerStep r i s) := by
  obtain ⟨hw, hc, ho⟩ := h
  cases hwl : s.workers i with
  | none => simpa [workerStep, hwl] using ⟨hw, hc, ho⟩
  | some w =>
    obtain ⟨pc, hcl', po, ch, il, pst⟩ := w
    have hWw := hw i _ hwl
    obtain ⟨g1, g2, g3⟩ := hWw
    simp only [WInvP, pastClosePost] at g1 g2 g3
    cases pc with
    | start =>
      simp only [workerStep, hwl]
      refine ⟨?_, hc, by simpa [closingCount_log_worker] using ho⟩
      exact forall_update_some (WInvP s.shared.post_open) s.workers i _ hw
        (by simp_all [WInvP, pastClosePost])
    | loop =>
      simp only [workerStep, hwl]
      refine ⟨?_, hc, ho⟩
      exact forall_update_some (WInvP s.shared.post_open) s.workers i _ hw
        (by simp_all [WInvP, pastClosePost])
    | branch =>
      simp only [workerStep, hwl]
      split
      · refine ⟨?_, hc, ho⟩
        exact forall_update_some (WInvP s.shared.post_open) s.workers i _ hw
          (by simp_all [WInvP, pastClosePost])
      · split
        · refine ⟨?_, hc, ho⟩
          exact forall_update_some (WInvP s.shared.post_open) s.workers i _ hw
            (by simp_all [WInvP, pastClosePost])
        · refine ⟨?_, hc, ho⟩
          exact forall_update_some (WInvP s.shared.post_open) s.workers i _ hw
            (by simp_all [WInvP, pastClosePost])
    | choose =>
      simp only [workerStep, hwl]
      refine ⟨?_, hc, ho⟩
      exact forall_update_some (WInvP s.shared.post_open) s.workers i _ hw
        (by simp_all [WInvP, pastClosePost])
    | decr =>
      simp only [workerStep, hwl]
      split
      · refine ⟨?_, hc, ho⟩
        exact forall_update_some (WInvP s.shared.post_open) s.workers i _ hw
          (by simp_all [WInvP, pastClosePost])
      · refine ⟨?_, hc, ho⟩
        exact forall_update_some (WInvP s.shared.post_open) s.workers i _ hw
          (by simp_all [WInvP, pastClosePost])
    | callClient =>
      simp only [workerStep, hwl]
      split
      · refine ⟨?_, hc, ho⟩
        exact forall_update_some (WInvP s.shared.post_open) s.workers i _ hw
          (by simp_all [WInvP, pastClosePost])
      · refine ⟨?_, hc, ho⟩
        exact forall_update_some (WInvP s.shared.post_open) s.workers i _ hw
          (by simp_all [WInvP, pastClosePost])
    | serveLog =>
      simp only [workerStep, hwl]
      refine ⟨?_, hc, by simpa [closingCount_log_worker] using ho⟩
      exact forall_update_some (WInvP s.shared.post_open) s.workers i _ hw
        (by simp_all [WInvP, pastClosePost])
    | serveEndLog =>
      simp only [workerStep, hwl]
      refine ⟨?_, hc, by simpa [closingCount_log_worker] using ho⟩
      exact forall_update_some (WInvP s.shared.post_open) s.workers i _ hw
        (by simp_all [WInvP, pastClosePost])
    | breakCheck =>
      simp only [workerStep, hwl]
      split
      · rename_i hopen
        have hil : il = false := by
          by_cases hil' : il = true
          · exact absurd (g1 hil') (by simp [hopen])
          · simpa using hil'
        refine ⟨?_, hc, ho⟩
        exact forall_update_some (WInvP s.shared.post_open) s.workers i _ hw
          (by simp_all [WInvP, pastClosePost])
      · refine ⟨?_, hc, ho⟩
        exact forall_update_some (WInvP s.shared.post_open) s.workers i _ hw
          (by simp_all [WInvP, pastClosePost])
    | breakLog =>
      simp only [workerStep, hwl]
      refine ⟨?_, hc, by simpa [closingCount_log_worker] using ho⟩
      exact forall_update_some (WInvP s.shared.post_open) s.workers i _ hw
        (by simp_all [WInvP, pastClosePost])
    | breakCheck2 =>
      have hil : il = false := g2 (Or.inr rfl)
      simp only [workerStep, hwl]
      split
      · refine ⟨?_, hc, ho⟩
        exact forall_update_some (WInvP s.shared.post_open) s.workers i _ hw
          (by simp_all [WInvP, pastClosePost])
      · rename_i hclosed
        refine ⟨?_, hc, ho⟩
        refine forall_update_some (WInvP s.shared.post_open) s.workers i _ hw ?_
        refine ⟨fun _ => by simpa using hclosed, by simp, ?_⟩
        simp_all [pastClosePost]
    | breakEndLog =>
      simp only [workerStep, hwl]
      refine ⟨?_, hc, by simpa [closingCount_log_worker] using ho⟩
      exact forall_update_some (WInvP s.shared.post_open) s.workers i _ hw
        (by simp_all [WInvP, pastClosePost])
    | closeCheck =>
      simp only [workerStep, hwl]
      split
      · refine ⟨?_, hc, ho⟩
        exact forall_update_some (WInvP s.shared.post_open) s.workers i _ hw
          (by simp_all [WInvP, pastClosePost])
      · refine ⟨?_, hc, ho⟩
        exact forall_update_some (WInvP s.shared.post_open) s.workers i _ hw
          (by simp_all [WInvP, pastClosePost])
    | closePost =>
      simp only [workerStep, hwl]
      split
      · refine ⟨?_, hc, ho⟩
        exact forall_update_some (WInvP s.shared.post_open) s.workers i _ hw
          (by simp_all [WInvP, pastClosePost])
      · refine ⟨?_, hc, ho⟩
        exact forall_update_some (WInvP s.shared.post_open) s.workers i _ hw
          (by simp_all [WInvP, pastClosePost])
    | release =>
      simp only [workerStep, hwl]
      refine ⟨?_, hc, ho⟩
      exact forall_update_some (WInvP s.shared.post_open) s.workers i _ hw
        (by simp_all [WInvP, pastClosePost])
    | waitDismiss =>
      simp only [workerStep, hwl]
      split
      · refine ⟨?_, hc, ho⟩
        exact forall_update_some (WInvP s.shared.post_open) s.workers i _ hw
          (by simp_all [WInvP, pastClosePost])
      · exact ⟨hw, hc, ho⟩
    | finalLog =>
      simp only [workerStep, hwl]
      refine ⟨?_, hc, by simpa [closingCount_log_worker] using ho⟩
      exact forall_update_some (WInvP s.shared.post_open) s.workers i _ hw
        (by simp_all [WInvP, pastClosePost])
    | done => simpa [workerStep, hwl] using ⟨hw, hc, ho⟩

lemma inv_orchStep (s : Sys) (h : Inv s) : Inv (orchStep s) := by
  obtain ⟨hw, hc, ho⟩ := h
  cases hop : s.orch.pc with
  | close =>
    simp only [orchStep, hop]
    refine ⟨?_, hc, ?_⟩
    · intro j w hjw
      exact WInvP_false _ _ (hw j w hjw)
    · simp only [OInvP, hop] at ho
      simp only [OInvP]
      omega
  | barrier k =>
    cases k with
    | zero =>
      simp only [orchStep, hop]
      refine ⟨hw, hc, ?_⟩
      simp only [OInvP, hop] at ho
      simp only [OInvP]
      omega
    | succ k =>
      simp only [orchStep, hop]
      split
      · refine ⟨hw, hc, ?_⟩
        simp only [OInvP, hop] at ho
        simp only [OInvP]
        omega
      · exact ⟨hw, hc, by simpa [OInvP, hop] using ho⟩
  | logClose =>
    simp only [orchStep, hop]
    refine ⟨hw, hc, ?_⟩
    simp only [OInvP, hop] at ho
    simp only [OInvP, closingCount_log_office]
    omega
  | dismiss k =>
    cases k with
    | zero =>
      simp only [orchStep, hop]
      refine ⟨hw, hc, ?_⟩
      simp only [OInvP, hop] at ho
      simp only [OInvP]
      omega
    | succ k =>
      simp only [orchStep, hop]
      refine ⟨hw, hc, ?_⟩
      simp only [OInvP, hop] at ho
      simp only [OInvP]
      omega
  | done => simpa [orchStep, hop] using ⟨hw, hc, ho⟩

lemma inv_step (s : Sys) (a : Act) (h : Inv s) : Inv (step s a) := by
  cases a with
  | client i => exact inv_clientStep i s h
  | worker i r => exact inv_workerStep r i s h
  | orch => exact inv_orchStep s h

lemma inv_run (acts : List Act) :
    ∀ s : Sys, Inv s → Inv (run s acts) := by
  induction acts with
  | nil => intro s h; exact h
  | cons a acts ih =>
    intro s h
    exact ih _ (inv_step s a h)

lemma clientStep_nu (i : Nat) (s : Sys) : (clientStep i s).nu = s.nu := by
  unfold clientStep
  split
  · rfl
  · split <;> first | rfl | (split <;> rfl)

lemma workerStep_nu (r : Fin 3) (i : Nat) (s : Sys) : (workerStep r i s).nu = s.nu := by
  unfold workerStep
  split
  · rfl
  · split <;> first | rfl | (split <;> first | rfl | (split <;> rfl))

lemma orchStep_nu (s : Sys) : (orchStep s).nu = s.nu := by
  unfold orchStep
  split <;> first | rfl | (split <;> rfl)

lemma step_nu (s : Sys) (a : Act) : (step s a).nu = s.nu := by
  cases a with
  | client i => exact clientStep_nu i s
  | worker i r => exact workerStep_nu r i s
  | orch => exact orchStep_nu s

lemma run_nu (acts : List Act) : ∀ s : Sys, (run s acts).nu = s.nu := by
  induction acts with
  | nil => intro s; rfl
  | cons a acts ih =>
    intro s
    rw [run, List.foldl_cons, ← run, ih, step_nu]

/-- C3: every worker posts the `leaving` semaphore (the closing barrier) at
most once over its whole lifetime, across both the break branch
(lines 386-390) and the closing branch (lines 406-409); its local
`is_leaving` flag records that the signal has been sent; and by the time
the worker blocks on `post_closed` (`dismissed`, line 420) — and from then
on until it exits — it has signalled exactly once.  Hence the
orchestrator's per-worker barrier wait receives exactly one signal per
worker.  Quantified over every initial configuration and every schedule. -/
theorem c3_signal_once (nu : Nat) (svcs : List (Fin 3)) (acts : List Act)
    (i : Nat) (w : Worker)
    (hw : (run (init nu svcs) acts).workers i = some w) :
    w.posted ≤ 1 ∧
    ((w.pc = .waitDismiss ∨ w.pc = .finalLog ∨ w.pc = .done) → w.posted = 1) ∧
    (w.is_leaving = true → w.posted = 1) := by
  have hinv := inv_run acts (init nu svcs) (inv_init nu svcs)
  obtain ⟨g1, g2, g3⟩ := hinv.1 i w hw
  refine ⟨?_, ?_, ?_⟩
  · rw [g3]
    split_ifs <;> omega
  · intro hpc
    rw [g3]
    rcases hpc with h | h | h <;> simp [h, pastClosePost]
  · intro hl
    rw [g3, hl]
    split_ifs with h1 h2
    · rfl
    · rfl
    · exact absurd rfl h2

/-- C2, amended.  What holds: the orchestrator writes the `closing` line
exactly once, and only after completing one `sem_wait(&shared->leaving)`
per worker (`waits = nu`, the ghost count of completed barrier waits).
What the original claim wrongly added — that no worker logs
WA_SERVING_START after the closing line — fails: a worker that signalled
the barrier from its break branch keeps looping and may still start a
service afterwards (see the counterexample). -/
theorem c2_amended (nu : Nat) (svcs : List (Fin 3)) (acts : List Act)
    (h : 1 ≤ closingCount (run (init nu svcs) acts).shared.log) :
    (run (init nu svcs) acts).orch.waits = nu ∧
    closingCount (run (init nu svcs) acts).shared.log = 1 := by
  have hinv := inv_run acts (init nu svcs) (inv_init nu svcs)
  have ho := hinv.2.2
  have hnu : (run (init nu svcs) acts).nu = nu := run_nu acts (init nu svcs)
  rw [hnu] at ho
  cases hop : (run (init nu svcs) acts).orch.pc <;>
    (rw [OInvP, hop] at ho; omega)

/-- C1, amended.  What holds of `process_client` (lines 288-305): the
client performs exactly one mutex-protected read of `post_open` (ghost
`reads_of_open` is 1 from the `decide` point on and never more); if it
exits through the closed path (`doneClosed`) it has never incremented any
queue counter; it increments a queue counter at most once; and whenever it
has incremented one, its recorded mutex-protected read returned open.
What the original claim wrongly added — that the locked read *alone*
decides, with no unlocked read of `post_open` influencing the decision —
fails: line 293 re-reads `memory->post_open` without the lock, and a
client whose locked read returned open still goes home without joining
when that re-read sees the office closed (see the counterexample). -/
theorem c1_amended (nu : Nat) (svcs : List (Fin 3)) (acts : List Act)
    (i : Nat) (c : Client)
    (hc : (run (init nu svcs) acts).clients i = some c) :
    c.reads_of_open ≤ 1 ∧
    (¬(c.pc = .start ∨ c.pc = .lockRead) → c.reads_of_open = 1) ∧
    (c.pc = .doneClosed → c.queue_incs = 0) ∧
    c.queue_incs ≤ 1 ∧
    (c.queue_incs = 1 → c.is_post_open = true) := by
  have hinv := inv_run acts (init nu svcs) (inv_init nu svcs)
  obtain ⟨h1, h2, h3⟩ := hinv.2.1 i c hc
  refine ⟨?_, ?_, ?_, ?_, ?_⟩
  · rw [h1]; split_ifs <;> omega
  · intro hne
    rw [h1]
    simp [hne]
  · intro hpc
    rw [h2, hpc]
    simp [joinedPC]
  · rw [h2]; split_ifs <;> omega
  · intro hinc
    refine h3 ?_
    rw [h2] at hinc
    cases hpc : c.pc <;> simp_all [joinedPC, enteredPC]

/-! ## Concrete runs -/

/-- Is this log line a WA_SERVING_START line? -/
def isServingEv : Event → Bool
  | .servingStart _ _ => true
  | _ => false

/-- Does some serving-start line occur (strictly) after a closing line? -/
def hasServingAfterClosing (evs : List Event) : Bool :=
  ((evs.dropWhile fun e => !isClosingEv e).drop 1).any isServingEv

/-- Schedule refuting C1: one client (service 1), no workers.  The client
logs `started`, performs its mutex-protected read of `post_open` (getting
open), then the orchestrator closes the office, and only then does the
client evaluate line 293, whose *unlocked* re-read of `post_open` sees the
office closed. -/
def c1acts : List Act :=
  [.client 0, .client 0, .orch, .client 0, .client 0]

/-- C1, counterexample.  The claim says: if the single lock-protected read
returns open, the client increments `queue_length[service]`.  In this run
the lock-protected read returned open (`is_post_open = true` is recorded),
yet the client incremented nothing (`queue_incs = 0`, all queues 0),
logged "going home" and exited with success — because the decision was
influenced by the subsequent unlocked re-read of `post_open` in line 293. -/
theorem c1_counterexample :
    (run (init 0 [0]) c1acts).clients 0 =
      some { pc := .doneClosed, service := 0, is_post_open := true
             reads_of_open := 1, queue_incs := 0 } ∧
    (run (init 0 [0]) c1acts).shared.queue 0 = 0 ∧
    (run (init 0 [0]) c1acts).shared.queue 1 = 0 ∧
    (run (init 0 [0]) c1acts).shared.queue 2 = 0 ∧
    (run (init 0 [0]) c1acts).shared.log.lines.map Prod.snd =
      [.clientStarted 1, .clientHome 1] := by
  decide

/-- Witness for `c1_amended` at a concrete run: one client after its
mutex-protected read, about to run line 293. -/
theorem c1_amended_witness :
    (run (init 0 [0]) [.client 0, .client 0]).clients 0 =
      some { pc := .decide, service := 0, is_post_open := true
             reads_of_open := 1, queue_incs := 0 } ∧
    ({ pc := .decide, service := 0, is_post_open := true
       reads_of_open := 1, queue_incs := 0 } : Client).reads_of_open ≤ 1 :=
  ⟨by decide,
   (c1_amended 0 [0] [.client 0, .client 0] 0 _ (by decide)).1⟩

/-- Schedule refuting C2: one worker, one client (service 1).  The worker
enters its break branch while the office is open; the client passes both
`post_open` reads of line 293 while the office is still open; the
orchestrator closes; the worker's second break-branch check (lines
386-390) sees closed and signals the barrier; the client (already past
its checks) increments the queue and blocks; the orchestrator completes
its single barrier wait and logs `closing`; the worker finishes its break,
loops, finds the waiting client and starts serving it. -/
def c2acts : List Act :=
  [.worker 0 0, .worker 0 0, .worker 0 0, .worker 0 0, .worker 0 0,
   .client 0, .client 0, .client 0,
   .orch,
   .worker 0 0,
   .client 0, .client 0,
   .orch, .orch, .orch,
   .worker 0 0,
   .worker 0 0, .worker 0 0, .worker 0 0, .worker 0 0, .worker 0 0, .worker 0 0]

/-- C2, counterexample.  The claim says no worker logs a serving line
after the closing line in any run; in this run the log is

`U 1 started, U 1 taking break, Z 1 started, Z 1 entering office,
closing, U 1 break finished, U 1 serving a service of type 1`

with the WA_SERVING_START line written two lines after `closing`. -/
theorem c2_counterexample :
    (run (init 1 [0]) c2acts).shared.log.lines.map Prod.snd =
      [.workerStarted 1, .breakStart 1, .clientStarted 1, .clientEntering 1 1,
       .closing, .breakEnd 1, .servingStart 1 1] ∧
    hasServingAfterClosing
      ((run (init 1 [0]) c2acts).shared.log.lines.map Prod.snd) = true := by
  decide

/-- Schedule for the `c2_amended` witness: one worker, no clients, run to
the point where the orchestrator has logged `closing`. -/
def c2wacts : List Act :=
  [.worker 0 0, .orch, .worker 0 0, .worker 0 0, .worker 0 0, .worker 0 0,
   .orch, .orch, .orch]

/-- Witness for `c2_amended` at a concrete run where the closing line was
logged: the orchestrator completed exactly `nu = 1` barrier waits. -/
theorem c2_amended_witness :
    1 ≤ closingCount (run (init 1 []) c2wacts).shared.log ∧
    (run (init 1 []) c2wacts).orch.waits = 1 :=
  ⟨by decide, (c2_amended 1 [] c2wacts (by decide)).1⟩

/-- Schedule for the `c3_signal_once` witness: one worker, no clients;
the worker reaches its `sem_wait(&memory->post_closed)` through the
closing branch. -/
def c3acts : List Act :=
  [.worker 0 0, .orch, .worker 0 0, .worker 0 0, .worker 0 0, .worker 0 0,
   .worker 0 0]

/-- Witness for `c3_signal_once` at a concrete run: the worker is blocked
on `post_closed` and its ghost count of `leaving` posts is exactly 1. -/
theorem c3_witness :
    (run (init 1 []) c3acts).workers 0 =
      some { pc := .waitDismiss, has_clients := false, post_open := false
             chosen := 0, is_leaving := false, posted := 1 } ∧
    ({ pc := .waitDismiss, has_clients := false, post_open := false
       chosen := 0, is_leaving := false, posted := 1 } : Worker).posted = 1 :=
  ⟨by decide,
   (c3_signal_once 1 [] c3acts 0 _ (by decide)).2.1 (Or.inl rfl)⟩

/-- Schedule refuting C4: one worker, two clients both picking service 1.
Both clients pass their `post_open` checks while the office is open; the
worker takes its `mutex` snapshot after the orchestrator closes, while
both queues are still empty, and proceeds down the closing branch past the
`check_queues` re-verification (line 400) and the `leaving` post; only
then do both clients increment `queue[0]` and block on `queue_sem[0]`;
finally the worker runs the release loop (lines 412-416). -/
def c4acts : List Act :=
  [.client 0, .client 0, .client 0,
   .client 1, .client 1, .client 1,
   .worker 0 0,
   .orch,
   .worker 0 0, .worker 0 0, .worker 0 0, .worker 0 0,
   .client 0, .client 0,
   .client 1, .client 1,
   .worker 0 0]

/-- C4, counterexample.  The claim says that for a service with
`queue_length[i] = k > 0` pending clients, enough signals are posted on
`queue_ready[i]` that all `k` blocked clients can wake.  In this run
`queue[0] = 2` clients are blocked on `queue_sem[0]`, the worker's release
loop has run (the worker is now blocked on `post_closed`), yet
`queue_sem[0] = 1 < 2`: the loop posts once per non-empty service, not
once per pending client, so one client can never wake. -/
theorem c4_counterexample :
    (run (init 1 [0, 0]) c4acts).shared.queue 0 = 2 ∧
    (run (init 1 [0, 0]) c4acts).shared.qsem 0 = 1 ∧
    ((run (init 1 [0, 0]) c4acts).clients 0).map Client.pc = some .waitCall ∧
    ((run (init 1 [0, 0]) c4acts).clients 1).map Client.pc = some .waitCall ∧
    ((run (init 1 [0, 0]) c4acts).workers 0).map Worker.pc = some .waitDismiss ∧
    (run (init 1 [0, 0]) c4acts).shared.qsem 0 < 2 := by
  decide

/-- C4, amended.  What the release loop of the closing branch (lines
412-416) actually guarantees: for every service `i` it posts
`queue_ready[i]` exactly once when `queue_length[i] > 0` and not at all
otherwise — one signal per non-empty service, regardless of how many
clients are pending on it, so a single worker's release wakes at most one
blocked client per service. -/
theorem c4_amended (queue : Fin 3 → Int) (sem : Fin 3 → Nat) (i : Fin 3) :
    releaseQueues queue sem i = sem i + (if queue i > 0 then 1 else 0) := by
  unfold releaseQueues
  fin_cases i <;>
    (by_cases h0 : queue 0 > 0 <;> by_cases h1 : queue 1 > 0 <;>
       by_cases h2 : queue 2 > 0 <;>
       simp [h0, h1, h2, Function.update])

lemma chooseQueue_random_hit (r : Fin 3) (q : Fin 3 → Int) (hr : q r ≠ 0) :
    chooseQueue r q = r.val + 1 := by
  simp [chooseQueue, hr]

lemma chooseQueue_fallback (r : Fin 3) (q : Fin 3 → Int) (hr : q r = 0)
    (hne : q 0 ≠ 0 ∨ q 1 ≠ 0 ∨ q 2 ≠ 0) :
    ∃ h : chooseQueue r q - 1 < 3,
      q ⟨chooseQueue r q - 1, h⟩ ≠ 0 ∧
      ∀ j : Fin 3, j.val < chooseQueue r q - 1 → q j = 0 := by
  by_cases h0 : q 0 ≠ 0
  · refine ⟨by simp [chooseQueue, hr, h0], ?_, ?_⟩
    · simp [chooseQueue, hr, h0]
    · intro j hj
      simp [chooseQueue, hr, h0] at hj
  · by_cases h1 : q 1 ≠ 0
    · refine ⟨by simp [chooseQueue, hr, h0, h1], ?_, ?_⟩
      · simp [chooseQueue, hr, h0, h1]
      · intro j hj
        simp only [chooseQueue, hr, h0, h1] at hj
        simp at h0
        fin_cases j <;> simp_all
    · by_cases h2 : q 2 ≠ 0
      · refine ⟨by simp [chooseQueue, hr, h0, h1, h2], ?_, ?_⟩
        · simp [chooseQueue, hr, h0, h1, h2]
        · intro j hj
          simp only [chooseQueue, hr, h0, h1, h2] at hj
          simp at h0 h1
          fin_cases j <;> simp_all
      · exact absurd hne (by simp_all)

/-- C6: in the serving branch (lines 350-364), the worker first tries the
random service index `random_int(1, 3)` (here the input `r`, zero-based);
the fallback scan to the lowest-indexed non-empty queue runs if and only
if the randomly chosen queue's counter is zero; and the three subsequent
steps of the same worker then decrement exactly the chosen queue's counter
by one and post its `queue_sem` exactly once, leaving the other queues and
semaphores untouched.  (`random_int` draws `rand() % 3 + 1`; its
distribution is outside this model — `r` is universally quantified.) -/
theorem c6_choose_and_serve (s : Sys) (i : Nat) (w : Worker) (r : Fin 3)
    (hw : s.workers i = some w) (hpc : w.pc = .choose)
    (hne : s.shared.queue 0 ≠ 0 ∨ s.shared.queue 1 ≠ 0 ∨ s.shared.queue 2 ≠ 0) :
    (s.shared.queue r ≠ 0 → chooseQueue r s.shared.queue = r.val + 1) ∧
    (s.shared.queue r = 0 →
      ∃ h : chooseQueue r s.shared.queue - 1 < 3,
        s.shared.queue ⟨chooseQueue r s.shared.queue - 1, h⟩ ≠ 0 ∧
        ∀ j : Fin 3, j.val < chooseQueue r s.shared.queue - 1 →
          s.shared.queue j = 0) ∧
    ∃ h : chooseQueue r s.shared.queue - 1 < 3,
      (run s [.worker i r, .worker i r, .worker i r]).workers i =
        some { w with pc := .serveLog, chosen := chooseQueue r s.shared.queue } ∧
      (run s [.worker i r, .worker i r, .worker i r]).shared.queue
          ⟨chooseQueue r s.shared.queue - 1, h⟩ =
        s.shared.queue ⟨chooseQueue r s.shared.queue - 1, h⟩ - 1 ∧
      (run s [.worker i r, .worker i r, .worker i r]).shared.qsem
          ⟨chooseQueue r s.shared.queue - 1, h⟩ =
        s.shared.qsem ⟨chooseQueue r s.shared.queue - 1, h⟩ + 1 ∧
      ∀ j : Fin 3, j ≠ ⟨chooseQueue r s.shared.queue - 1, h⟩ →
        (run s [.worker i r, .worker i r, .worker i r]).shared.queue j =
          s.shared.queue j ∧
        (run s [.worker i r, .worker i r, .worker i r]).shared.qsem j =
          s.shared.qsem j := by
  have hb := chooseQueue_bounds r s.shared.queue hne
  have hlt : chooseQueue r s.shared.queue - 1 < 3 := by omega
  refine ⟨fun hr => chooseQueue_random_hit r s.shared.queue hr,
          fun hr => chooseQueue_fallback r s.shared.queue hr hne,
          hlt, ?_, ?_, ?_, ?_⟩ <;>
    (simp only [run, List.foldl_cons, List.foldl_nil, step, workerStep, hw, hpc,
       Function.update_same, Function.update_idem, hlt, dif_pos]
     try simp [Function.update_same])
  intro j hj
  simp [Function.update_noteq hj]

/-- Worker poised at the serving-branch queue selection, for the
`c6_choose_and_serve` witness. -/
def c6w : Worker :=
  { pc := .choose, has_clients := true, post_open := false
    chosen := 0, is_leaving := false, posted := 0 }

/-- Concrete system with one waiting client counted in queue 1 and one
worker about to choose a queue. -/
def c6sys : Sys :=
  { shared :=
      { post_open := false
        queue := fun j => if j = 0 then 1 else 0
        qsem := fun _ => 0
        leaving := 0
        post_closed := 0
        log := ⟨0, []⟩ }
    clients := fun _ => none
    workers := fun i => if i = 0 then some c6w else none
    orch := { pc := .close, waits := 0 }
    nu := 1
    ub := false }

/-- Witness for `c6_choose_and_serve`: with `queue[0] = 1` and the random
draw picking service 1, the chosen queue is 1 (no fallback). -/
theorem c6_witness :
    (c6sys.shared.queue 0 ≠ 0 ∨ c6sys.shared.queue 1 ≠ 0 ∨
      c6sys.shared.queue 2 ≠ 0) ∧
    chooseQueue 0 c6sys.shared.queue = 1 :=
  ⟨by decide,
   (c6_choose_and_serve c6sys 0 c6w 0 rfl rfl (by decide)).1 (by decide)⟩

/-- C10: bounds of the serving-branch queue selection (lines 347-361) and
of `check_queues`-style emptiness.  If at least one counter is non-zero
when the selection runs, the selected 1-based index is in {1, 2, 3}, so
the accesses `memory->queue[queue - 1]` of the decrement and semaphore
post are in bounds (`queue - 1 < 3`).  If all three counters are zero at
that moment, the fallback scan exits with `queue = 4` and the access
`memory->queue[3]` is out of bounds — the model's `decr` step records this
as undefined behaviour (`ub`).  So the in-bounds property holds exactly
under the non-empty precondition. -/
theorem c10_bounds :
    (∀ (r : Fin 3) (q : Fin 3 → Int), (q 0 ≠ 0 ∨ q 1 ≠ 0 ∨ q 2 ≠ 0) →
      1 ≤ chooseQueue r q ∧ chooseQueue r q ≤ 3 ∧ chooseQueue r q - 1 < 3) ∧
    (∀ (r : Fin 3) (q : Fin 3 → Int), q 0 = 0 → q 1 = 0 → q 2 = 0 →
      chooseQueue r q = 4 ∧ ¬(chooseQueue r q - 1 < 3)) ∧
    (∀ (s : Sys) (i : Nat) (w : Worker) (r : Fin 3),
      s.workers i = some w → w.pc = .decr → ¬(w.chosen - 1 < 3) →
      (step s (.worker i r)).ub = true) := by
  refine ⟨?_, ?_, ?_⟩
  · intro r q h
    obtain ⟨h1, h2⟩ := chooseQueue_bounds r q h
    exact ⟨h1, h2, by omega⟩
  · intro r q h0 h1 h2
    rw [chooseQueue_all_zero r q h0 h1 h2]
    exact ⟨rfl, by omega⟩
  · intro s i w r hw hpc hch
    simp [step, workerStep, hw, hpc, hch]

/-- Worker poised at the decrement with the out-of-range index 4, for the
`c10_bounds` witness. -/
def c10w : Worker :=
  { pc := .decr, has_clients := true, post_open := false
    chosen := 4, is_leaving := false, posted := 0 }

/-- Concrete system for the out-of-bounds arm of `c10_bounds`. -/
def c10sys : Sys :=
  { shared :=
      { post_open := false
        queue := fun _ => 0
        qsem := fun _ => 0
        leaving := 0
        post_closed := 0
        log := ⟨0, []⟩ }
    clients := fun _ => none
    workers := fun i => if i = 0 then some c10w else none
    orch := { pc := .close, waits := 0 }
    nu := 1
    ub := false }

/-- Witness for `c10_bounds` at concrete inputs: a non-empty snapshot
gives an in-bounds index, the all-zero snapshot gives 4, and the model's
decrement step on index 4 records the out-of-bounds access. -/
theorem c10_witness :
    (1 ≤ chooseQueue 0 (fun _ => (1 : Int)) ∧
      chooseQueue 0 (fun _ => (1 : Int)) ≤ 3 ∧
      chooseQueue 0 (fun _ => (1 : Int)) - 1 < 3) ∧
    (chooseQueue 0 (fun _ => (0 : Int)) = 4 ∧
      ¬(chooseQueue 0 (fun _ => (0 : Int)) - 1 < 3)) ∧
    (step c10sys (.worker 0 0)).ub = true :=
  ⟨c10_bounds.1 0 _ (by decide),
   c10_bounds.2.1 0 _ rfl rfl rfl,
   c10_bounds.2.2 c10sys 0 c10w 0 rfl rfl (by decide)⟩

/-! ## Argument handling of `main` (lines 437-461) -/

/-- The whitespace characters `strtol` skips (C `isspace` in the POSIX
locale). -/
def isSpaceC (c : Char) : Bool :=
  c == ' ' || c == '\t' || c == '\n' || c == '\x0b' || c == '\x0c' || c == '\r'

/-- Value of a digit string. -/
def digitsToNat : List Char → Nat → Nat
  | [], acc => acc
  | c :: cs, acc => digitsToNat cs (acc * 10 + (c.toNat - '0'.toNat))

/-- `LONG_MAX` / `LONG_MIN` clamping of `strtol` on an LP64 target: on
overflow `strtol` returns the nearest representable `long`. -/
def clampLong (v : Int) : Int :=
  max (-(2 ^ 63)) (min (2 ^ 63 - 1) v)

/-- The `(int)` cast of line 123 on a 32-bit `int`: two's-complement
truncation. -/
def toCInt (v : Int) : Int :=
  (v + 2 ^ 31) % 2 ^ 32 - 2 ^ 31

/-- `strtol(arg, &temp, 10)`: skip leading whitespace, optional sign, then
digits; returns the clamped value and the rest of the string (`temp`).
If no digits were consumed, no conversion is performed: the value is 0 and
`temp` is the original string. -/
def strtol10 (s : List Char) : Int × List Char :=
  let afterSpace := s.dropWhile isSpaceC
  let (neg, afterSign) :=
    match afterSpace with
    | '-' :: rest => (true, rest)
    | '+' :: rest => (false, rest)
    | _ => (false, afterSpace)
  let digits := afterSign.takeWhile Char.isDigit
  let rest := afterSign.dropWhile Char.isDigit
  if digits = [] then (0, s)
  else
    let v : Int := Int.ofNat (digitsToNat digits 0)
    (clampLong (if neg then -v else v), rest)

/-- `parse_int_arg` (lines 116-125): `strtol`, then error (exit with
failure) when `strlen(temp) != 0`, else return `(int)result`.  `none`
models the `error(...)` exit. -/
def parse_int_arg (arg : String) : Option Int :=
  let (result, temp) := strtol10 arg.data
  if temp.length ≠ 0 then none else some (toCInt result)

/-- `check_range` (lines 108-110). -/
def check_range (num min max : Int) : Bool :=
  num ≥ min && num ≤ max

/-- Parsed configuration of `main`: `NZ` clients, `NU` workers, `TZ` max
client arrival delay, `TU` max worker break, `F` closing window
(lines 443-447). -/
structure MainCfg where
  NZ : Int
  NU : Int
  TZ : Int
  TU : Int
  F : Int
deriving DecidableEq

/-- Outcome of `main` up to (but not including) `SharedMemory_init`
(line 461): either some `error(...)` ran — printing to stderr and exiting
with `EXIT_FAILURE` before any shared memory, semaphore or log file
exists — or validation passed and `main` proceeds to create shared
state with this configuration. -/
inductive MainOutcome
  | earlyExit (msg : String)
  | started (cfg : MainCfg)
deriving DecidableEq

/-- Lines 437-456 of `main`: the `argc != 6` check, the five
`parse_int_arg` calls and the range validation, in order.  All
`parse_int_arg` failures print the same message, so collapsing the
sequential parses into one simultaneous match is observationally
faithful. -/
def mainPrefix (argv : List String) : MainOutcome :=
  match argv with
  | [_, a1, a2, a3, a4, a5] =>
    match parse_int_arg a1, parse_int_arg a2, parse_int_arg a3,
        parse_int_arg a4, parse_int_arg a5 with
    | some nz, some nu, some tz, some tu, some f =>
      if nz > 0 && nu > 0 && check_range tz 0 10000 &&
          check_range tu 0 100 && check_range f 0 10000 then
        .started ⟨nz, nu, tz, tu, f⟩
      else .earlyExit "Invalid input arguments"
    | _, _, _, _, _ => .earlyExit "Invalid argument"
  | _ => .earlyExit "Invalid number of arguments"

/-- A forked child process with the arguments `main` hands it. -/
inductive ForkedProc
  | client (id : Nat) (tz : Int)
  | worker (id : Nat) (tu : Int)
deriving DecidableEq

/-- Is this forked process a client? -/
def isClientProc : ForkedProc → Bool
  | .client _ _ => true
  | _ => false

/-- Is this forked process a worker? -/
def isWorkerProc : ForkedProc → Bool
  | .worker _ _ => true
  | _ => false

/-- The fork loops of `main` (lines 464-483): `NZ` calls of
`process_client(shared, i + 1, TZ)`, then `NU` calls of
`process_worker(shared, i + 1, TU)`. -/
def forkPlan (cfg : MainCfg) : List ForkedProc :=
  (List.range cfg.NZ.toNat).map (fun i => .client (i + 1) cfg.TZ) ++
  (List.range cfg.NU.toNat).map (fun i => .worker (i + 1) cfg.TU)

/-- C7, counterexample.  The claim says the *first* positional argument is
the worker count (determining how many worker processes are forked) and
the second the client count.  Invoked as `proj2 1 2 0 0 0`, the program
parses `NZ = 1` from the first argument and `NU = 2` from the second, and
its fork plan creates 1 client process (first argument) and 2 worker
processes (second argument) — not 1 worker as the claim predicts. -/
theorem c7_counterexample :
    mainPrefix ["proj2", "1", "2", "0", "0", "0"] =
      .started ⟨1, 2, 0, 0, 0⟩ ∧
    parse_int_arg "1" = some 1 ∧
    forkPlan ⟨1, 2, 0, 0, 0⟩ =
      [.client 1 0, .worker 1 0, .worker 2 0] ∧
    (forkPlan ⟨1, 2, 0, 0, 0⟩).countP isWorkerProc = 2 ∧
    (forkPlan ⟨1, 2, 0, 0, 0⟩).countP isClientProc = 1 ∧
    (2 : Nat) ≠ 1 := by
  decide

/-- Everything `mainPrefix` guarantees when it reaches `started`: the
role, order and validated range of every argument, and the fork counts. -/
lemma mainPrefix_started_inv (p a1 a2 a3 a4 a5 : String) (cfg : MainCfg)
    (h : mainPrefix [p, a1, a2, a3, a4, a5] = .started cfg) :
    parse_int_arg a1 = some cfg.NZ ∧
    parse_int_arg a2 = some cfg.NU ∧
    parse_int_arg a3 = some cfg.TZ ∧
    parse_int_arg a4 = some cfg.TU ∧
    parse_int_arg a5 = some cfg.F ∧
    cfg.NZ > 0 ∧ cfg.NU > 0 ∧
    0 ≤ cfg.TZ ∧ cfg.TZ ≤ 10000 ∧
    0 ≤ cfg.TU ∧ cfg.TU ≤ 100 ∧
    0 ≤ cfg.F ∧ cfg.F ≤ 10000 ∧
    (forkPlan cfg).countP isClientProc = cfg.NZ.toNat ∧
    (forkPlan cfg).countP isWorkerProc = cfg.NU.toNat ∧
    (∀ pr ∈ forkPlan cfg, ∀ id tz, pr = .client id tz → tz = cfg.TZ) ∧
    (∀ pr ∈ forkPlan cfg, ∀ id tu, pr = .worker id tu → tu = cfg.TU) := by
  rcases h1 : parse_int_arg a1 with _ | nz <;>
    rcases h2 : parse_int_arg a2 with _ | nu <;>
    rcases h3 : parse_int_arg a3 with _ | tz <;>
    rcases h4 : parse_int_arg a4 with _ | tu <;>
    rcases h5 : parse_int_arg a5 with _ | f <;>
    simp only [mainPrefix, h1, h2, h3, h4, h5] at h
  all_goals try exact MainOutcome.noConfusion h
  split at h
  · rename_i hcond
    injection h with h
    subst h
    simp only [Bool.and_eq_true, check_range, decide_eq_true_eq] at hcond
    obtain ⟨⟨⟨⟨hnz, hnu⟩, htz⟩, htu⟩, hf⟩ := hcond
    refine ⟨rfl, rfl, rfl, rfl, rfl, hnz, hnu, htz.1, htz.2, htu.1, htu.2, hf.1, hf.2,
      ?_, ?_, ?_, ?_⟩
    · simp [forkPlan, List.countP_append, List.countP_map, isClientProc,
        isWorkerProc, Function.comp_def, List.countP_true, List.countP_false]
    · simp [forkPlan, List.countP_append, List.countP_map, isClientProc,
        isWorkerProc, Function.comp_def, List.countP_true, List.countP_false]
    · intro pr hpr id tz hcl
      subst hcl
      simp only [forkPlan, List.mem_append, List.mem_map] at hpr
      rcases hpr with ⟨j, _, hj⟩ | ⟨j, _, hj⟩
      · injection hj with _ hj
        exact hj.symm
      · exact absurd hj (by simp)
    · intro pr hpr id tu hwk
      subst hwk
      simp only [forkPlan, List.mem_append, List.mem_map] at hpr
      rcases hpr with ⟨j, _, hj⟩ | ⟨j, _, hj⟩
      · exact absurd hj (by simp)
      · injection hj with _ hj
        exact hj.symm
  · exact absurd h (by simp)

/-- C7, amended.  The five positional arguments are interpreted in the
order: *client* count `NZ` first, *worker* count `NU` second, then max
client arrival delay `TZ` (0..10000 ms, handed to every forked client),
max worker break duration `TU` (0..100 ms, handed to every forked
worker), and closing-window bound `F` (0..10000 ms); the first argument
determines how many client processes are forked and the second how many
worker processes. -/
theorem c7_amended (p a1 a2 a3 a4 a5 : String) (cfg : MainCfg)
    (h : mainPrefix [p, a1, a2, a3, a4, a5] = .started cfg) :
    parse_int_arg a1 = some cfg.NZ ∧
    parse_int_arg a2 = some cfg.NU ∧
    parse_int_arg a3 = some cfg.TZ ∧
    parse_int_arg a4 = some cfg.TU ∧
    parse_int_arg a5 = some cfg.F ∧
    cfg.NZ > 0 ∧ cfg.NU > 0 ∧
    0 ≤ cfg.TZ ∧ cfg.TZ ≤ 10000 ∧
    0 ≤ cfg.TU ∧ cfg.TU ≤ 100 ∧
    0 ≤ cfg.F ∧ cfg.F ≤ 10000 ∧
    (forkPlan cfg).countP isClientProc = cfg.NZ.toNat ∧
    (forkPlan cfg).countP isWorkerProc = cfg.NU.toNat ∧
    (∀ pr ∈ forkPlan cfg, ∀ id tz, pr = .client id tz → tz = cfg.TZ) ∧
    (∀ pr ∈ forkPlan cfg, ∀ id tu, pr = .worker id tu → tu = cfg.TU) :=
  mainPrefix_started_inv p a1 a2 a3 a4 a5 cfg h

/-- Witness for `c7_amended` at the invocation `proj2 3 2 10 5 100`. -/
theorem c7_witness :
    parse_int_arg "3" = some (3 : Int) ∧
    parse_int_arg "2" = some (2 : Int) ∧
    (forkPlan ⟨3, 2, 10, 5, 100⟩).countP isClientProc = 3 :=
  have h := c7_amended "proj2" "3" "2" "10" "5" "100" ⟨3, 2, 10, 5, 100⟩ (by decide)
  ⟨h.1, h.2.1, h.2.2.2.2.2.2.2.2.2.2.2.2.2.1⟩

/-- C8, counterexample.  The claim says *every* invocation with an
out-of-range value exits with failure before shared state is created.
Invoked as `proj2 1 1 4294967301 0 0`, the third argument's value is
4294967301 — far outside the 0..10000 range for the client delay — yet
`strtol` parses it as a `long` and the `(int)` cast of line 123 truncates
it to 5, which passes `check_range(TZ, 0, 10000)`: `main` proceeds to
`SharedMemory_init` instead of failing. -/
theorem c8_counterexample :
    (strtol10 "4294967301".data).1 = 4294967301 ∧
    (strtol10 "4294967301".data).2 = [] ∧
    ¬((4294967301 : Int) ≤ 10000) ∧
    parse_int_arg "4294967301" = some 5 ∧
    mainPrefix ["proj2", "1", "1", "4294967301", "0", "0"] =
      .started ⟨1, 1, 5, 0, 0⟩ := by
  refine ⟨by decide, by decide, by decide, by decide, ?_⟩
  decide

/-- C8, amended.  A wrong argument count, an argument `strtol` cannot
fully consume, or a parsed-and-`(int)`-truncated value failing the range
checks all make `main` exit with `EXIT_FAILURE` before `SharedMemory_init`
runs (no shared memory, semaphore or log file exists yet); conversely,
whenever `main` reaches shared-state creation, there were exactly six
`argv` entries, every argument parsed completely, and all *truncated*
values are in range.  However, an out-of-range literal whose value
truncated to 32-bit `int` lands in range (e.g. 4294967301, read as 5) is
accepted, so the guarantee holds for the truncated values, not for the
written ones. -/
theorem c8_amended :
    (∀ argv : List String, argv.length ≠ 6 →
      mainPrefix argv = .earlyExit "Invalid number of arguments") ∧
    (∀ (argv : List String) (cfg : MainCfg), mainPrefix argv = .started cfg →
      ∃ p a1 a2 a3 a4 a5, argv = [p, a1, a2, a3, a4, a5] ∧
        parse_int_arg a1 = some cfg.NZ ∧
        parse_int_arg a2 = some cfg.NU ∧
        parse_int_arg a3 = some cfg.TZ ∧
        parse_int_arg a4 = some cfg.TU ∧
        parse_int_arg a5 = some cfg.F ∧
        cfg.NZ > 0 ∧ cfg.NU > 0 ∧
        0 ≤ cfg.TZ ∧ cfg.TZ ≤ 10000 ∧
        0 ≤ cfg.TU ∧ cfg.TU ≤ 100 ∧
        0 ≤ cfg.F ∧ cfg.F ≤ 10000) := by
  constructor
  · intro argv hlen
    rcases argv with _ | ⟨p, _ | ⟨a1, _ | ⟨a2, _ | ⟨a3, _ | ⟨a4, _ | ⟨a5, _ | ⟨a6, rest⟩⟩⟩⟩⟩⟩⟩
    all_goals first | rfl | simp at hlen
  · intro argv cfg h
    rcases argv with _ | ⟨p, _ | ⟨a1, _ | ⟨a2, _ | ⟨a3, _ | ⟨a4, _ | ⟨a5, _ | ⟨a6, rest⟩⟩⟩⟩⟩⟩⟩
    all_goals try exact MainOutcome.noConfusion h
    have hs := mainPrefix_started_inv p a1 a2 a3 a4 a5 cfg h
    exact ⟨p, a1, a2, a3, a4, a5, rfl, hs.1, hs.2.1, hs.2.2.1, hs.2.2.2.1,
      hs.2.2.2.2.1, hs.2.2.2.2.2.1, hs.2.2.2.2.2.2.1, hs.2.2.2.2.2.2.2.1,
      hs.2.2.2.2.2.2.2.2.1, hs.2.2.2.2.2.2.2.2.2.1, hs.2.2.2.2.2.2.2.2.2.2.1,
      hs.2.2.2.2.2.2.2.2.2.2.2.1, hs.2.2.2.2.2.2.2.2.2.2.2.2.1⟩

/-- Witness for `c8_amended` at concrete invocations: a wrong argument
count exits early, and the valid invocation `proj2 1 1 0 0 0` that does
reach shared-state creation indeed has all values in range. -/
theorem c8_witness :
    mainPrefix ["proj2"] = .earlyExit "Invalid number of arguments" ∧
    (∃ p a1 a2 a3 a4 a5,
      (["proj2", "1", "1", "0", "0", "0"] : List String) =
        [p, a1, a2, a3, a4, a5] ∧
      parse_int_arg a1 = some (MainCfg.mk 1 1 0 0 0).NZ ∧
      parse_int_arg a2 = some (MainCfg.mk 1 1 0 0 0).NU ∧
      parse_int_arg a3 = some (MainCfg.mk 1 1 0 0 0).TZ ∧
      parse_int_arg a4 = some (MainCfg.mk 1 1 0 0 0).TU ∧
      parse_int_arg a5 = some (MainCfg.mk 1 1 0 0 0).F ∧
      (MainCfg.mk 1 1 0 0 0).NZ > 0 ∧ (MainCfg.mk 1 1 0 0 0).NU > 0 ∧
      0 ≤ (MainCfg.mk 1 1 0 0 0).TZ ∧ (MainCfg.mk 1 1 0 0 0).TZ ≤ 10000 ∧
      0 ≤ (MainCfg.mk 1 1 0 0 0).TU ∧ (MainCfg.mk 1 1 0 0 0).TU ≤ 100 ∧
      0 ≤ (MainCfg.mk 1 1 0 0 0).F ∧ (MainCfg.mk 1 1 0 0 0).F ≤ 10000) :=
  ⟨c8_amended.1 ["proj2"] (by decide),
   c8_amended.2 ["proj2", "1", "1", "0", "0", "0"] ⟨1, 1, 0, 0, 0⟩ (by decide)⟩

/-! ## `SharedMemory_init` (lines 171-185) under injected failures -/

/-- Which acquisition calls succeed in a run of `SharedMemory_init`:
`mmap` (line 172), `fopen` (line 179), and the `sem_init` calls of
`Semaphores_init` (lines 146-154, collapsed to one flag — a failure of
any of them calls `error`). -/
structure InitEnv where
  mmapOk : Bool
  fopenOk : Bool
  semOk : Bool
deriving DecidableEq

/-- Resources held by the process at a given moment: the shared mapping,
the open `proj2.out` handle, and whether the semaphores were all
initialized. -/
structure HeldResources where
  mapped : Bool
  fileOpen : Bool
  semsInit : Bool
deriving DecidableEq

/-- Outcome of `SharedMemory_init`: either an `error(...)` call — print to
stderr and `exit(EXIT_FAILURE)` — with the resources still held at the
moment of exit, or success with everything constructed. -/
inductive InitOutcome
  | fatalExit (msg : String) (held : HeldResources)
  | ok (held : HeldResources)
deriving DecidableEq

/-- `SharedMemory_init` (lines 171-185), with the `error` helper
(lines 98-101) inlined: `error` prints and exits immediately, performing
no `munmap`, `fclose` or `sem_destroy`, so whatever was constructed
before the failing call is still held when the process exits. -/
def SharedMemory_init (env : InitEnv) : InitOutcome :=
  if ¬env.mmapOk then
    .fatalExit "Failed to allocate memory" ⟨false, false, false⟩
  else if ¬env.fopenOk then
    .fatalExit "Failed to open output file" ⟨true, false, false⟩
  else if ¬env.semOk then
    .fatalExit "Failed to initialize semaphore" ⟨true, true, false⟩
  else
    .ok ⟨true, true, true⟩

/-- Did `SharedMemory_init` exit fatally? -/
def initFailed : InitOutcome → Bool
  | .fatalExit _ _ => true
  | .ok _ => false

/-- The resources held at the end of `SharedMemory_init`. -/
def heldOf : InitOutcome → HeldResources
  | .fatalExit _ held => held
  | .ok held => held

/-- C9, counterexample.  The claim says that on a resource-acquisition
failure, partially constructed shared state is torn down (unmapped /
destroyed) before the process exits.  When `mmap` succeeds but `fopen`
fails, `SharedMemory_init` calls `error`, which exits immediately: the
shared mapping created two statements earlier is still mapped at exit —
nothing is torn down. -/
theorem c9_counterexample :
    SharedMemory_init ⟨true, false, true⟩ =
      .fatalExit "Failed to open output file" ⟨true, false, false⟩ ∧
    (heldOf (SharedMemory_init ⟨true, false, true⟩)).mapped = true := by
  exact ⟨rfl, rfl⟩

/-- C9, amended.  Every resource-acquisition failure in
`SharedMemory_init` is fatal and reported immediately (the process exits
with failure before returning), but partially constructed state is *not*
torn down: at the exit the mapping is held whenever `mmap` succeeded, and
the log file is additionally open whenever `fopen` also succeeded.
(The only teardown-before-exit in the program is `main`'s fork-failure
path, lines 469 and 480, which is process-creation, not resource
acquisition.) -/
theorem c9_amended (env : InitEnv)
    (h : ¬(env.mmapOk = true ∧ env.fopenOk = true ∧ env.semOk = true)) :
    initFailed (SharedMemory_init env) = true ∧
    (heldOf (SharedMemory_init env)).mapped = env.mmapOk ∧
    (heldOf (SharedMemory_init env)).fileOpen = (env.mmapOk && env.fopenOk) := by
  obtain ⟨m, f, sm⟩ := env
  cases m <;> cases f <;> cases sm <;>
    simp_all [SharedMemory_init, initFailed, heldOf]

/-- Witness for `c9_amended` with a failing semaphore initialization: the
process exits fatally with both the mapping and the log file still held. -/
theorem c9_witness :
    initFailed (SharedMemory_init ⟨true, true, false⟩) = true ∧
    (heldOf (SharedMemory_init ⟨true, true, false⟩)).mapped = true ∧
    (heldOf (SharedMemory_init ⟨true, true, false⟩)).fileOpen =
      (true && true) :=
  c9_amended ⟨true, true, false⟩ (by decide)
